import Mathlib

/-!
Verification of the playwright-tables grid-materialization and polling core.

Each section embeds one component of the source (table-body.ts, table-header.ts,
table-utils.ts, polling.ts, the PlaywrightTable.waitForStable loop and the
legacy evaluateAll body reader) as executable Lean definitions, and the
theorems at the end of the file settle the specification claims against them.
JavaScript strings are Lean `String`s; JavaScript arrays that may contain
holes are lists of `Option` values; `Map`s are association lists.
-/

set_option maxHeartbeats 1000000

namespace PlaywrightTables

/-! ## Body grid materialization (src/table-body.ts)

Cells arrive with their content and span attributes already fetched
(`fetchCellData`); the strict span parser has guaranteed both spans are
positive integers, so they are modelled as `Nat`. -/

structure RawCell where
  content : String
  rowspan : Nat
  colspan : Nat
deriving DecidableEq, Repr

/-- A JavaScript `Cell[]` array that may contain holes (`undefined` entries). -/
abbrev SparseRow := List (Option String)

/-- The `Record<number, Cell[]>` spanned-cell store; an absent key behaves
like an empty array (storeSpannedCells initializes it to `[]` before the
first write, and iterating an empty array is a no-op). -/
abbrev SpannedCells := Nat → SparseRow

def emptySpanned : SpannedCells := fun _ => []

/-- JavaScript array element assignment `a[i] = v`: pads with holes when `i`
is beyond the current length. -/
def setAt (l : SparseRow) (i : Nat) (v : String) : SparseRow :=
  match l, i with
  | [], 0 => [some v]
  | [], n + 1 => none :: setAt [] n v
  | _ :: t, 0 => some v :: t
  | x :: t, n + 1 => x :: setAt t n v

/-- JavaScript array element read: out-of-range and holes are both `undefined`. -/
def getAt (l : SparseRow) (i : Nat) : Option String :=
  (l.get? i).join

def updSpanned (sc : SpannedCells) (r : Nat) (row : SparseRow) : SpannedCells :=
  fun i => if i = r then row else sc i

/-- `storeSpannedCells` (table-body.ts:153): for `span = 1 … rowspan − 1`
record the content at `(rowIndex + span, colIndex)`. -/
def storeSpannedCells (rowIndex colIndex rowspan : Nat) (content : String)
    (sc : SpannedCells) : SpannedCells :=
  (List.range' 1 (rowspan - 1)).foldl
    (fun sc span => updSpanned sc (rowIndex + span) (setAt (sc (rowIndex + span)) colIndex content))
    sc

/-- `processCellData` (table-body.ts:128): write the content at columns
`colIndex … colIndex + colspan − 1` of the working row, then store the
rowspan projections when `rowspan > 1`. -/
def processCellData (cd : RawCell) (colIndex : Nat) (columns : SparseRow)
    (rowIndex : Nat) (sc : SpannedCells) : SparseRow × SpannedCells :=
  let columns := (List.range cd.colspan).foldl
    (fun cols span => setAt cols (colIndex + span) cd.content) columns
  if cd.rowspan > 1 then
    (columns, storeSpannedCells rowIndex colIndex cd.rowspan cd.content sc)
  else
    (columns, sc)

/-- `Array.prototype.forEach` over a sparse array skips holes; each defined
entry is written into the working row at its column (table-body.ts:170). -/
def applyEntries : List (Nat × Option String) → SparseRow → SparseRow
  | [], cols => cols
  | (i, some v) :: rest, cols => applyEntries rest (setAt cols i v)
  | (_, none) :: rest, cols => applyEntries rest cols

/-- `applySpannedCells` (table-body.ts:168). -/
def applySpannedCells (sc : SpannedCells) (rowIndex : Nat) (columns : SparseRow) : SparseRow :=
  applyEntries (sc rowIndex).enum columns

/-- `extractColumns` (table-body.ts:73): zero matching cells returns the empty
row before `applySpannedCells` runs. -/
def extractColumns (cells : List RawCell) (rowIndex : Nat) (sc : SpannedCells) :
    SparseRow × SpannedCells :=
  match cells with
  | [] => ([], sc)
  | _ =>
    let p := cells.enum.foldl
      (fun p e => processCellData e.2 e.1 p.1 rowIndex p.2) ([], sc)
    (applySpannedCells p.2 rowIndex p.1, p.2)

def getRowsAux : List (List RawCell) → Nat → SpannedCells → List SparseRow
  | [], _, _ => []
  | cells :: rest, rowIndex, sc =>
    let p := extractColumns cells rowIndex sc
    p.1 :: getRowsAux rest (rowIndex + 1) p.2

/-- `TableBody.getRows` (table-body.ts:28): materialize all body rows with a
spanned-cell store threaded through the row loop. -/
def getBodyRows (rows : List (List RawCell)) : List SparseRow :=
  getRowsAux rows 0 emptySpanned

/-- Follows the spec wording of claim C1 ("apply every entry the
SpannedCellStore holds for row r, overwriting only columns not already
populated by a physical cell"): a spanned entry is applied only when the
working row still holds `undefined` at that column.  This is the refinement
candidate compared against the implementation's `applyEntries`. -/
def applyEntriesSpec : List (Nat × Option String) → SparseRow → SparseRow
  | [], cols => cols
  | (i, some v) :: rest, cols =>
    applyEntriesSpec rest (if getAt cols i = none then setAt cols i v else cols)
  | (_, none) :: rest, cols => applyEntriesSpec rest cols

def applySpannedCellsSpec (sc : SpannedCells) (rowIndex : Nat) (columns : SparseRow) : SparseRow :=
  applyEntriesSpec (sc rowIndex).enum columns

def extractColumnsSpec (cells : List RawCell) (rowIndex : Nat) (sc : SpannedCells) :
    SparseRow × SpannedCells :=
  match cells with
  | [] => ([], sc)
  | _ =>
    let p := cells.enum.foldl
      (fun p e => processCellData e.2 e.1 p.1 rowIndex p.2) ([], sc)
    (applySpannedCellsSpec p.2 rowIndex p.1, p.2)

def getRowsAuxSpec : List (List RawCell) → Nat → SpannedCells → List SparseRow
  | [], _, _ => []
  | cells :: rest, rowIndex, sc =>
    let p := extractColumnsSpec cells rowIndex sc
    p.1 :: getRowsAuxSpec rest (rowIndex + 1) p.2

def getBodyRowsSpec (rows : List (List RawCell)) : List SparseRow :=
  getRowsAuxSpec rows 0 emptySpanned

/-! ## Header grid materialization (src/table-header.ts)

Header cells arrive with their (already extracted, trimmed) text and their
span attributes.  The `rowSpans : Map<number, string>` carry map is an
association list with unique keys (`Map.set` replaces in place, `Map.delete`
removes the single entry). -/

structure HeaderCell where
  text : String
  rowspan : Nat
  colspan : Nat
deriving DecidableEq, Repr

abbrev CarryMap := List (Nat × String)

/-- `Map.set`: replace the value of an existing key, else append a new entry. -/
def mapSet (k : Nat) (v : String) : CarryMap → CarryMap
  | [] => [(k, v)]
  | (k', v') :: rest => if k' = k then (k, v) :: rest else (k', v') :: mapSet k v rest

/-- `Map.delete`: drop the (single) entry with the given key. -/
def mapDelete (k : Nat) : CarryMap → CarryMap
  | [] => []
  | (k', v') :: rest => if k' = k then rest else (k', v') :: mapDelete k rest

/-- The `while (rowSpans.has(columnIndex))` loop shared by `processCell` and
`addRemainingRowSpans`: flush the pending carry at the current column into the
output row, delete it, move one column right, repeat.  Each iteration deletes
one present key, so `rowSpans.length` fuel always suffices. -/
def flushLoop : Nat → CarryMap → List String → Nat → CarryMap × List String × Nat
  | 0, rowSpans, row, c => (rowSpans, row, c)
  | fuel + 1, rowSpans, row, c =>
    match rowSpans.lookup c with
    | some v => flushLoop fuel (mapDelete c rowSpans) (row ++ [v]) (c + 1)
    | none => (rowSpans, row, c)

def flushCarries (rowSpans : CarryMap) (row : List String) (c : Nat) :
    CarryMap × List String × Nat :=
  flushLoop rowSpans.length rowSpans row c

/-- `handleColspan` (table-header.ts:92): push `text__C1 … text__C(colspan−1)`. -/
def handleColspan (row : List String) (text : String) (colspan : Nat) : List String :=
  (List.range' 1 (colspan - 1)).foldl (fun r i => r ++ [text ++ "__C" ++ toString i]) row

/-- `handleRowspan` (table-header.ts:98): when `rowspan > 1`, record the text
at columns `columnIndex … columnIndex + colspan − 1` of the carry map. -/
def handleRowspan (rowSpans : CarryMap) (text : String) (columnIndex colspan rowspan : Nat) :
    CarryMap :=
  if rowspan > 1 then
    (List.range colspan).foldl (fun m i => mapSet (columnIndex + i) text m) rowSpans
  else rowSpans

structure HeaderOpts where
  emptyCellReplacement : Bool
  duplicateSuffix : Bool
  colspanEnabled : Bool
  colspanSuffix : Bool
deriving DecidableEq, Repr

/-- `getDefaultOptions` with no caller options: everything disabled
(fields: emptyCellReplacement, duplicateSuffix, colspanEnabled, colspanSuffix). -/
def defaultHeaderOpts : HeaderOpts :=
  ⟨false, false, false, false⟩

/-- Options with colspan expansion enabled and the `__C<i>` suffix kept. -/
def colspanSuffixedOpts : HeaderOpts :=
  ⟨false, false, true, true⟩

/-- Options with colspan expansion enabled and the `__C<i>` suffix stripped. -/
def colspanPlainOpts : HeaderOpts :=
  ⟨false, false, true, false⟩

/-- `processCell` (table-header.ts:65). -/
def processCell (cell : HeaderCell) (row : List String) (rowSpans : CarryMap)
    (columnIndex : Nat) (opts : HeaderOpts) : List String × CarryMap × Nat :=
  let p := flushCarries rowSpans row columnIndex
  let rowSpans := p.1
  let row := p.2.1
  let columnIndex := p.2.2
  let text := if cell.text = "" ∧ opts.emptyCellReplacement then "\x7b\x7bEmpty\x7d\x7d" else cell.text
  let row := row ++ [text]
  let row := handleColspan row text cell.colspan
  let rowSpans := handleRowspan rowSpans text columnIndex cell.colspan cell.rowspan
  (row, rowSpans, columnIndex + cell.colspan)

def processCellStep (opts : HeaderOpts) (st : List String × CarryMap × Nat)
    (cell : HeaderCell) : List String × CarryMap × Nat :=
  processCell cell st.1 st.2.1 st.2.2 opts

/-- `processRow` (table-header.ts:47): fold `processCell` over the physical
cells, then flush the remaining carries at the trailing columns. -/
def processRow (cells : List HeaderCell) (rowSpans : CarryMap) (opts : HeaderOpts) :
    List String × CarryMap :=
  let p := cells.foldl (processCellStep opts) ([], rowSpans, 0)
  let q := flushCarries p.2.1 p.1 p.2.2
  (q.2.1, q.1)

def processRowsAux : List (List HeaderCell) → CarryMap → HeaderOpts → List (List String)
  | [], _, _ => []
  | cells :: rest, rowSpans, opts =>
    let p := processRow cells rowSpans opts
    p.1 :: processRowsAux rest p.2 opts

/-- `/__C\d/` matching at the head of a character list: two underscores, a
`C`, then one decimal digit. -/
def markerAt (l : List Char) : Bool :=
  match l with
  | a :: b :: c :: d :: _ => a == '_' && b == '_' && c == 'C' && d.isDigit
  | _ => false

/-- `/__C\d/.test(s)`: the marker occurs at some position of `s`. -/
def hasMarker : List Char → Bool
  | [] => false
  | c :: rest => markerAt (c :: rest) || hasMarker rest

def hasMarkerS (s : String) : Bool := hasMarker s.data

/-- `s.replace(/__C\d/, "")`: delete the four characters of the first marker
occurrence, leave everything else in place. -/
def stripFirstMarker : List Char → List Char
  | [] => []
  | c :: rest => if markerAt (c :: rest) then rest.drop 3 else c :: stripFirstMarker rest

def stripFirstMarkerS (s : String) : String := ⟨stripFirstMarker s.data⟩

/-- `removeColspanCells` (table-header.ts:130): splice out every cell that
matches `/__C\d/`. -/
def removeColspanCells (rows : List (List String)) : List (List String) :=
  rows.map (fun row => row.filter (fun s => !hasMarkerS s))

/-- `removeColspanSuffix` (table-header.ts:141): strip the first `/__C\d/`
match from every cell that has one. -/
def removeColspanSuffix (rows : List (List String)) : List (List String) :=
  rows.map (fun row => row.map (fun s => if hasMarkerS s then stripFirstMarkerS s else s))

/-- `applyColspanOptions` (table-header.ts:120). -/
def applyColspanOptions (rows : List (List String)) (opts : HeaderOpts) : List (List String) :=
  let rows := if !opts.colspanEnabled then removeColspanCells rows else rows
  if !opts.colspanSuffix then removeColspanSuffix rows else rows

/-- One row of `applyDuplicateSuffix` (table-header.ts:151): headerCountMap
starts empty; a repeated text gets `__D<count>` appended and bumps the count. -/
def dupSuffixRow : List String → List (String × Nat) → List String
  | [], _ => []
  | h :: rest, counts =>
    match counts.lookup h with
    | some n => (h ++ "__D" ++ toString n) :: dupSuffixRow rest (mapSetStr h (n + 1) counts)
    | none => h :: dupSuffixRow rest (mapSetStr h 1 counts)
where
  mapSetStr (k : String) (v : Nat) : List (String × Nat) → List (String × Nat)
    | [] => [(k, v)]
    | (k', v') :: rest => if k' = k then (k, v) :: rest else (k', v') :: mapSetStr k v rest

def applyDuplicateSuffix (rows : List (List String)) (opts : HeaderOpts) : List (List String) :=
  if opts.duplicateSuffix then rows.map (fun r => dupSuffixRow r []) else rows

/-- `TableHeader.getRows` (table-header.ts:14): materialize all header rows
with the carry map threaded through, then run the colspan and duplicate
post-passes. -/
def getHeaderRows (rows : List (List HeaderCell)) (opts : HeaderOpts) : List (List String) :=
  applyDuplicateSuffix (applyColspanOptions (processRowsAux rows [] opts) opts) opts

/-! ## Condition poller failure path (src/polling.ts)

`toPassWithErrorContext` wraps the supplied check so every failure message is
re-thrown with a context line prepended, hands the wrapped check to the retry
primitive, and on overall timeout strips the retry primitive's call-log
section from the surfaced message.  Messages are character lists so that the
`indexOf`/`substring` arithmetic of the source is explicit. -/

/-- Boolean prefix test on character lists. -/
def isPre : List Char → List Char → Bool
  | [], _ => true
  | _ :: _, [] => false
  | p :: ps, x :: xs => p == x && isPre ps xs

/-- `String.prototype.indexOf`, returning the first position at which `pat`
occurs in `l` (JavaScript's `-1` becomes `none`). -/
def idxOf? : List Char → List Char → Option Nat
  | [], pat => if isPre pat [] then some 0 else none
  | x :: t, pat => if isPre pat (x :: t) then some 0 else (idxOf? t pat).map (· + 1)

/-- The `"\n\nCall Log:"` separator the source searches for. -/
def callLogMarker : List Char := '\n' :: '\n' :: "Call Log:".data

/-- `s.includes(pat)`, in terms of `indexOf`. -/
def containsSub (l pat : List Char) : Bool :=
  (idxOf? l pat).isSome

/-- The inner wrapper's re-thrown message (polling.ts:25): a newline, the
optional `[Context: …]` line, then the original failure message. -/
def wrappedMessage (context : Option (List Char)) (lastMsg : List Char) : List Char :=
  (match context with
   | some c => '\n' :: ("[Context: ".data ++ c ++ "]\n".data)
   | none => ['\n']) ++ lastMsg

/-- Modelled external collaborator: the retry primitive's timeout error, whose
message is the last thrown message followed by a call-log section (this is
the format the source's comment documents and its tests observe). -/
def toPassTimeoutMessage (innerMsg log : List Char) : List Char :=
  innerMsg ++ callLogMarker ++ log

/-- The outer `catch` of `toPassWithErrorContext` (polling.ts:30): cut the
message at the first `"\n\nCall Log:"` when that occurs at a positive index,
otherwise rethrow unchanged. -/
def stripCallLog (msg : List Char) : List Char :=
  match idxOf? msg callLogMarker with
  | some i => if 0 < i then msg.take i else msg
  | none => msg

/-- The message `toPassWithErrorContext` raises when the deadline elapses and
the last check failure carried `lastMsg`. -/
def pollFailureMessage (context : Option (List Char)) (lastMsg log : List Char) : List Char :=
  stripCallLog (toPassTimeoutMessage (wrappedMessage context lastMsg) log)

/-- `pat` cannot match across the boundary of `… ++ pat`: no proper nonempty
tail of `pat` is also one of its heads. -/
def selfOverlapFree (pat : List Char) : Bool :=
  (List.range pat.length).all (fun j => j == 0 || !isPre (pat.drop j) pat)

/-! ## Span attribute parsing (src/table-utils.ts strict, part_005 lenient)

`getAttribute` yields `none` for an absent attribute.  `parseInt(s, 10)`
skips leading whitespace, takes an optional sign and then the longest run of
decimal digits; no digits means `NaN`, modelled as `none`. -/

def digitsToNat (l : List Char) : Nat :=
  l.foldl (fun n c => n * 10 + (c.toNat - 48)) 0

/-- JavaScript `parseInt(s, 10)` (`none` = `NaN`). -/
def parseIntJs (s : String) : Option Int :=
  let l := s.data.dropWhile Char.isWhitespace
  let sign : Int := if l.head? = some '-' then -1 else 1
  let l := match l with
    | '-' :: t => t
    | '+' :: t => t
    | _ => l
  let digits := l.takeWhile Char.isDigit
  if digits.isEmpty then none else some (sign * digitsToNat digits)

/-- `attr || "1"`: JavaScript `||` replaces both `null` and the empty string
by the default. -/
def attrOrOne : Option String → String
  | none => "1"
  | some s => if s = "" then "1" else s

/-- How a nullable attribute prints inside a template literal. -/
def attrRaw : Option String → String
  | none => "null"
  | some s => s

/-- `TableUtils.parseSpanAttributes`, strict variant (table-utils.ts:28):
reject `NaN` and values below 1 with an error naming the attribute and its
raw value. -/
def parseSpanAttributes (rowspanAttr colspanAttr : Option String) :
    Except String (Int × Int) :=
  let rowspan := parseIntJs (attrOrOne rowspanAttr)
  let colspan := parseIntJs (attrOrOne colspanAttr)
  match rowspan with
  | none =>
    .error ("Invalid rowspan attribute: \"" ++ attrRaw rowspanAttr ++ "\". Expected positive integer.")
  | some r =>
    if r < 1 then
      .error ("Invalid rowspan attribute: \"" ++ attrRaw rowspanAttr ++ "\". Expected positive integer.")
    else
      match colspan with
      | none =>
        .error ("Invalid colspan attribute: \"" ++ attrRaw colspanAttr ++ "\". Expected positive integer.")
      | some c =>
        if c < 1 then
          .error ("Invalid colspan attribute: \"" ++ attrRaw colspanAttr ++ "\". Expected positive integer.")
        else
          .ok (r, c)

/-- `TableUtils.parseSpanAttributes`, lenient variant (part_005:10): the raw
`parseInt` results with no validation at all (`none` = `NaN`). -/
def parseSpanAttributesLenient (rowspanAttr colspanAttr : Option String) :
    Option Int × Option Int :=
  (parseIntJs (attrOrOne rowspanAttr), parseIntJs (attrOrOne colspanAttr))

/-! ## Scalar casting of cell content (part_007:547, `castContent`)

`Number(value)` converts a string exactly (no float rounding is modelled, so
finite values are rationals); `NaN` and the two infinities are explicit
constructors. -/

inductive JsNum where
  | nan
  | inf
  | negInf
  | val (q : ℚ)
deriving DecidableEq, Repr

def JsNum.isNaN : JsNum → Bool
  | nan => true
  | _ => false

def isHexDigitJs (c : Char) : Bool :=
  c.isDigit || ('a' ≤ c && c ≤ 'f') || ('A' ≤ c && c ≤ 'F')

def hexVal (c : Char) : Nat :=
  if c.isDigit then c.toNat - 48
  else if 'a' ≤ c ∧ c ≤ 'f' then c.toNat - 87
  else c.toNat - 55

def baseDigitsToNat (base : Nat) (l : List Char) : Nat :=
  l.foldl (fun n c => n * base + hexVal c) 0

/-- An unsigned radix literal body (after `0x`/`0o`/`0b`): nonempty, all
digits of the base, else `NaN`. -/
def parseRadix (base : Nat) (digitOk : Char → Bool) (l : List Char) : JsNum :=
  if !l.isEmpty && l.all digitOk then .val (baseDigitsToNat base l) else .nan

def fracToRat (l : List Char) : ℚ :=
  (digitsToNat l : ℚ) / ((10 : ℚ) ^ l.length)

/-- The optional exponent tail of a decimal literal; anything left over after
it makes the whole conversion `NaN`. -/
def applyExp (q : ℚ) (rest : List Char) : Option ℚ :=
  match rest with
  | [] => some q
  | e :: r =>
    if e = 'e' ∨ e = 'E' then
      let sign : Int := if r.head? = some '-' then -1 else 1
      let r := match r with
        | '-' :: t => t
        | '+' :: t => t
        | _ => r
      if !r.isEmpty && r.all Char.isDigit then
        some (q * (10 : ℚ) ^ (sign * (digitsToNat r : Int)))
      else none
    else none

/-- The mantissa of a decimal literal: `digits [. digits?]` or `. digits`;
returns its value and the unconsumed tail. -/
def parseDecMantissa (l : List Char) : Option (ℚ × List Char) :=
  let ints := l.takeWhile Char.isDigit
  let rest := l.drop ints.length
  if ints.isEmpty then
    match rest with
    | '.' :: r2 =>
      let frac := r2.takeWhile Char.isDigit
      if frac.isEmpty then none
      else some (fracToRat frac, r2.drop frac.length)
    | _ => none
  else
    match rest with
    | '.' :: r2 =>
      let frac := r2.takeWhile Char.isDigit
      some ((digitsToNat ints : ℚ) + fracToRat frac, r2.drop frac.length)
    | _ => some ((digitsToNat ints : ℚ), rest)

def parseSignedDec (l : List Char) : JsNum :=
  let neg := l.head? = some '-'
  let l := match l with
    | '-' :: t => t
    | '+' :: t => t
    | _ => l
  if l = "Infinity".data then (if neg then .negInf else .inf)
  else
    match parseDecMantissa l with
    | some (q, rest) =>
      match applyExp q rest with
      | some q' => .val (if neg then -q' else q')
      | none => .nan
    | none => .nan

/-- JavaScript `Number(string)`: trim, empty means zero, radix-prefixed
literals are unsigned, otherwise an optionally signed decimal literal or
`Infinity`; anything else is `NaN`. -/
def jsStringToNum (s : String) : JsNum :=
  let l := s.data.dropWhile Char.isWhitespace
  let l := (l.reverse.dropWhile Char.isWhitespace).reverse
  match l with
  | [] => .val 0
  | '0' :: c :: r =>
    if c = 'x' ∨ c = 'X' then parseRadix 16 isHexDigitJs r
    else if c = 'o' ∨ c = 'O' then parseRadix 8 (fun d => '0' ≤ d && d ≤ '7') r
    else if c = 'b' ∨ c = 'B' then parseRadix 2 (fun d => d = '0' || d = '1') r
    else parseSignedDec l
  | _ => parseSignedDec l

inductive CastValue where
  | bool (b : Bool)
  | num (n : JsNum)
  | str (s : String)
deriving DecidableEq, Repr

/-- `/\d{4}-\d{2}-\d{2}/` matching at the head of a character list. -/
def dateAt (l : List Char) : Bool :=
  match l with
  | a :: b :: c :: d :: '-' :: e :: f :: '-' :: g :: h :: _ =>
    a.isDigit && b.isDigit && c.isDigit && d.isDigit &&
    e.isDigit && f.isDigit && g.isDigit && h.isDigit
  | _ => false

/-- `/\d{4}-\d{2}-\d{2}/.test(s)`. -/
def hasDatePattern : List Char → Bool
  | [] => false
  | c :: rest => dateAt (c :: rest) || hasDatePattern rest

def hasDatePatternS (s : String) : Bool := hasDatePattern s.data

/-- JavaScript `String.prototype.trim`. -/
def jsTrim (s : String) : String :=
  ⟨((s.data.dropWhile Char.isWhitespace).reverse.dropWhile Char.isWhitespace).reverse⟩

/-- JavaScript `String.prototype.toLowerCase` (ASCII range). -/
def jsToLower (s : String) : String :=
  ⟨s.data.map Char.toLower⟩

/-- `castContent` (part_007:547).  `Date.parse` is an environment facility of
the host; its success flag enters only the conjunction with the date-pattern
regex, so it is a parameter of the embedding. -/
def castContent (dateParse : String → Bool) (value : String) : CastValue :=
  let lowerInput := jsToLower (jsTrim value)
  if lowerInput = "true" then .bool true
  else if lowerInput = "false" then .bool false
  else
    let num := jsStringToNum value
    let isNumber := !num.isNaN
    let isDate := dateParse value && hasDatePatternS value
    if isDate then .str value
    else if isNumber then .num num
    else .str value

/-! ## Stability detector (part_006:805, `PlaywrightTable.waitForStable`)

One loop iteration is a `Tick`: the `Date.now()` reading at the `while`
guard, the outcome of materializing the table (`none` when `getTable`
throws), and the `Date.now()` reading used inside the body for
`stableStartTime` bookkeeping.  The `checkInterval` sleep is absorbed into
the tick timestamps, which are arbitrary here. -/

structure Tick where
  guardTime : Int
  result : Option String
  obsTime : Int
deriving DecidableEq, Repr

inductive WFSResult where
  | stable (t : Int)
  | timeout
deriving DecidableEq, Repr

structure WFSOptions where
  stabilityDuration : Option Int
  checkInterval : Option Int
  timeout : Option Int
deriving DecidableEq, Repr

/-- The `while (Date.now() - startTime < timeout)` loop of `waitForStable`.
An exhausted tick list behaves like an elapsed deadline (the theorems below
only ever conclude from the explicit `stable` return). -/
def wfsLoop (stabilityDuration timeout startTime : Int) :
    List Tick → Option String → Option Int → WFSResult
  | [], _, _ => .timeout
  | t :: rest, lastSnapshot, stableStartTime =>
    if t.guardTime - startTime < timeout then
      match t.result with
      | none => wfsLoop stabilityDuration timeout startTime rest none none
      | some cur =>
        match lastSnapshot with
        | none => wfsLoop stabilityDuration timeout startTime rest (some cur) (some t.obsTime)
        | some last =>
          if cur = last then
            if stabilityDuration ≤ t.obsTime - (stableStartTime.getD t.obsTime) then
              .stable t.obsTime
            else
              wfsLoop stabilityDuration timeout startTime rest lastSnapshot stableStartTime
          else
            wfsLoop stabilityDuration timeout startTime rest (some cur) (some t.obsTime)
    else
      .timeout

/-- `waitForStable` (part_006:805): defaults applied, no option validation,
then the polling loop starting from no snapshot. -/
def waitForStable (opts : WFSOptions) (startTime : Int) (ticks : List Tick) : WFSResult :=
  wfsLoop (opts.stabilityDuration.getD 500) (opts.timeout.getD 30000) startTime ticks none none

/-! ## Lemmas about the sparse-array primitives -/

theorem getAt_setAt_self : ∀ (i : Nat) (l : SparseRow) (v : String),
    getAt (setAt l i v) i = some v := by
  intro i
  induction i with
  | zero => intro l v; cases l <;> rfl
  | succ n ih =>
    intro l v
    cases l with
    | nil => simpa [setAt, getAt] using ih [] v
    | cons x t => simpa [setAt, getAt] using ih t v

theorem getAt_setAt_ne : ∀ (i : Nat) (l : SparseRow) (j : Nat) (v : String), i ≠ j →
    getAt (setAt l i v) j = getAt l j := by
  intro i
  induction i with
  | zero =>
    intro l j v h
    cases l with
    | nil =>
      cases j with
      | zero => exact absurd rfl h
      | succ m => simp [setAt, getAt]
    | cons x t =>
      cases j with
      | zero => exact absurd rfl h
      | succ m => simp [setAt, getAt]
  | succ n ih =>
    intro l j v h
    cases l with
    | nil =>
      cases j with
      | zero => simp [setAt, getAt]
      | succ m =>
        have : n ≠ m := fun he => h (by simp [he])
        simpa [setAt, getAt] using ih [] m v this
    | cons x t =>
      cases j with
      | zero => simp [setAt, getAt]
      | succ m =>
        have : n ≠ m := fun he => h (by simp [he])
        simpa [setAt, getAt] using ih t m v this

theorem applyEntries_getAt_of_not_mem :
    ∀ (entries : List (Nat × Option String)) (cols : SparseRow) (j : Nat),
    (∀ p ∈ entries, p.1 ≠ j) → getAt (applyEntries entries cols) j = getAt cols j := by
  intro entries
  induction entries with
  | nil => intro cols j _; rfl
  | cons e rest ih =>
    intro cols j h
    obtain ⟨i, x⟩ := e
    cases x with
    | none =>
      simpa [applyEntries] using ih cols j (fun p hp => h p (List.mem_cons_of_mem _ hp))
    | some v =>
      have hi : i ≠ j := h (i, some v) (List.mem_cons_self _ _)
      rw [applyEntries, ih _ j (fun p hp => h p (List.mem_cons_of_mem _ hp)),
        getAt_setAt_ne i cols j v hi]

theorem applyEntries_enumFrom_some :
    ∀ (l : SparseRow) (k : Nat) (cols : SparseRow) (j : Nat) (v : String), k ≤ j →
    l.get? (j - k) = some (some v) →
    getAt (applyEntries (List.enumFrom k l) cols) j = some v := by
  intro l
  induction l with
  | nil => intro k cols j v _ h; simp at h
  | cons x t ih =>
    intro k cols j v hk h
    rcases Nat.lt_or_ge k j with hlt | hge
    · have hjk : j - k = (j - (k + 1)) + 1 := by omega
      rw [hjk] at h
      cases x with
      | none =>
        simpa [List.enumFrom, applyEntries] using ih (k + 1) cols j v (by omega) h
      | some w =>
        simpa [List.enumFrom, applyEntries] using ih (k + 1) (setAt cols k w) j v (by omega) h
    · have hkj : k = j := le_antisymm hk hge
      subst hkj
      simp only [Nat.sub_self, List.get?] at h
      cases h
      rw [List.enumFrom, applyEntries, applyEntries_getAt_of_not_mem]
      · exact getAt_setAt_self k cols v
      · intro p hp
        have := (List.mem_enumFrom hp).1
        omega

theorem applySpannedCells_getAt_of_some (sc : SpannedCells) (r : Nat) (cols : SparseRow)
    (j : Nat) (v : String) (h : (sc r).get? j = some (some v)) :
    getAt (applySpannedCells sc r cols) j = some v := by
  have : (sc r).enum = List.enumFrom 0 (sc r) := rfl
  rw [applySpannedCells, this]
  exact applyEntries_enumFrom_some (sc r) 0 cols j v (Nat.zero_le j) (by simpa using h)

theorem storeStep_ne (rowIndex colIndex : Nat) (content : String) (sc : SpannedCells)
    (s r : Nat) (h : rowIndex + s ≠ r) :
    updSpanned sc (rowIndex + s) (setAt (sc (rowIndex + s)) colIndex content) r = sc r := by
  simp only [updSpanned, if_neg (show ¬r = rowIndex + s from fun hh => h hh.symm)]

theorem storeFold_of_not_mem :
    ∀ (spans : List Nat) (rowIndex colIndex : Nat) (content : String) (sc : SpannedCells)
      (k : Nat), k ∉ spans →
    (spans.foldl
      (fun sc span => updSpanned sc (rowIndex + span) (setAt (sc (rowIndex + span)) colIndex content))
      sc) (rowIndex + k) = sc (rowIndex + k) := by
  intro spans
  induction spans with
  | nil => intro _ _ _ _ _ _; rfl
  | cons s rest ih =>
    intro rowIndex colIndex content sc k hk
    have hs : s ≠ k := fun he => hk (he ▸ List.mem_cons_self _ _)
    have hk' : k ∉ rest := fun hm => hk (List.mem_cons_of_mem _ hm)
    rw [List.foldl_cons, ih rowIndex colIndex content _ k hk',
      storeStep_ne rowIndex colIndex content sc s (rowIndex + k) (by omega)]

theorem storeFold_of_mem :
    ∀ (spans : List Nat) (rowIndex colIndex : Nat) (content : String) (sc : SpannedCells)
      (k : Nat), k ∈ spans → spans.Nodup →
    getAt ((spans.foldl
      (fun sc span => updSpanned sc (rowIndex + span) (setAt (sc (rowIndex + span)) colIndex content))
      sc) (rowIndex + k)) colIndex = some content := by
  intro spans
  induction spans with
  | nil => intro _ _ _ _ _ h _; simp at h
  | cons s rest ih =>
    intro rowIndex colIndex content sc k hk hnd
    rcases List.mem_cons.mp hk with he | hm
    · subst he
      have hnot : k ∉ rest := (List.nodup_cons.mp hnd).1
      rw [List.foldl_cons, storeFold_of_not_mem rest rowIndex colIndex content _ k hnot]
      simp only [updSpanned, if_pos rfl]
      exact getAt_setAt_self colIndex (sc (rowIndex + k)) content
    · rw [List.foldl_cons]
      exact ih rowIndex colIndex content _ k hm (List.nodup_cons.mp hnd).2

theorem storeSpannedCells_getAt (rowIndex colIndex rowspan : Nat) (content : String)
    (sc : SpannedCells) (k : Nat) (h1 : 1 ≤ k) (h2 : k < rowspan) :
    getAt ((storeSpannedCells rowIndex colIndex rowspan content sc) (rowIndex + k)) colIndex =
      some content := by
  rw [storeSpannedCells]
  refine storeFold_of_mem _ rowIndex colIndex content sc k ?_ (List.nodup_range' _ _)
  rw [List.mem_range'_1]
  omega

/-! ## Body-row materialization lemmas -/

theorem getRowsAux_get?_of_empty :
    ∀ (rows : List (List RawCell)) (r i : Nat) (sc : SpannedCells),
    rows.get? r = some ([] : List RawCell) →
    (getRowsAux rows i sc).get? r = some ([] : SparseRow) := by
  intro rows
  induction rows with
  | nil => intro r i sc h; simp at h
  | cons cells rest ih =>
    intro r i sc h
    cases r with
    | zero =>
      simp only [List.get?] at h
      cases h
      rfl
    | succ m =>
      simp only [List.get?] at h ⊢
      exact ih m (i + 1) _ h

/-! ## Claim C1 -/

/-- C1, counterexample.  The claim says spanned values are applied
"overwriting only columns not already populated by a physical cell".  On the
input whose first row is `A` (rowspan 2) then `B`, and whose second row has
physical cells `X`, `Y`, the implementation overwrites the physical `X` at
column 0 with the carried `A`, while the variant that follows the claim's
wording keeps `X`. -/
theorem claim_C1_counterexample :
    getBodyRows [[⟨"A", 2, 1⟩, ⟨"B", 1, 1⟩], [⟨"X", 1, 1⟩, ⟨"Y", 1, 1⟩]] =
      [[some "A", some "B"], [some "A", some "Y"]] ∧
    getBodyRowsSpec [[⟨"A", 2, 1⟩, ⟨"B", 1, 1⟩], [⟨"X", 1, 1⟩, ⟨"Y", 1, 1⟩]] =
      [[some "A", some "B"], [some "X", some "Y"]] ∧
    (some "A" : Option String) ≠ some "X" := by
  refine ⟨?_, ?_, by decide⟩ <;> rfl

/-- C1, amended: a body cell at row `r`, column `c` with `rowspan = n > 1` has
its value recorded for every row `r+1 … r+n−1` at column `c`, and when such a
row is built the recorded value is applied by overwriting column `c`
unconditionally — including columns already populated by a physical cell
(the working row `cols` is arbitrary here). -/
theorem claim_C1_amended (r c n : Nat) (v : String) (sc : SpannedCells)
    (cols : SparseRow) (k : Nat) (h1 : 1 ≤ k) (h2 : k < n) :
    getAt (applySpannedCells (storeSpannedCells r c n v sc) (r + k) cols) c = some v := by
  apply applySpannedCells_getAt_of_some
  have h := storeSpannedCells_getAt r c n v sc k h1 h2
  rw [getAt, Option.join_eq_some] at h
  exact h

/-- C1, witness: the amended theorem applied at a concrete populated column.
Row 0, column 0 holds `"A"` with rowspan 3; in row 2 the working array already
holds `"X"` at column 0 and is still overwritten. -/
theorem claim_C1_witness :
    getAt (applySpannedCells (storeSpannedCells 0 0 3 "A" emptySpanned) (0 + 2) [some "X"]) 0 =
      some "A" :=
  claim_C1_amended 0 0 3 "A" emptySpanned [some "X"] 2 (by decide) (by decide)

/-! ## Claim C10 -/

/-- C10: a body row whose column selector matches zero cells yields the empty
logical row — `extractColumns` returns before `applySpannedCells` runs, so
stored rowspan projections are not applied to it.  The concrete run makes the
second conjunct visible: row 0 projects `"A"` into rows 1 and 2, row 1 has no
cells and stays empty, while row 2 (with one physical cell `"B"`) receives the
projection. -/
theorem claim_C10_empty_row :
    (∀ (rows : List (List RawCell)) (r : Nat),
      rows.get? r = some ([] : List RawCell) →
      (getBodyRows rows).get? r = some ([] : SparseRow)) ∧
    getBodyRows [[⟨"A", 3, 1⟩], [], [⟨"B", 1, 1⟩]] = [[some "A"], [], [some "A"]] := by
  constructor
  · intro rows r h
    exact getRowsAux_get?_of_empty rows r 0 emptySpanned h
  · rfl

/-- C10, witness: the universally quantified part applied to the concrete
three-row table whose middle row has no cells. -/
theorem claim_C10_witness :
    (getBodyRows [[⟨"A", 3, 1⟩], [], [⟨"B", 1, 1⟩]]).get? 1 = some ([] : SparseRow) :=
  claim_C10_empty_row.1 [[⟨"A", 3, 1⟩], [], [⟨"B", 1, 1⟩]] 1 (by decide)

/-! ## Carry-map and header-row lemmas -/

theorem lookup_mapSet_self : ∀ (m : CarryMap) (k : Nat) (v : String),
    (mapSet k v m).lookup k = some v := by
  intro m
  induction m with
  | nil => intro k v; simp [mapSet, List.lookup]
  | cons e rest ih =>
    intro k v
    obtain ⟨k', v'⟩ := e
    by_cases h : k' = k
    · simp [mapSet, h, List.lookup]
    · simp only [mapSet, if_neg h, List.lookup]
      rw [show (k == k') = false from beq_eq_false_iff_ne.mpr (fun he => h he.symm)]
      exact ih k v

theorem lookup_mapSet_ne : ∀ (m : CarryMap) (k k' : Nat) (v : String), k' ≠ k →
    (mapSet k v m).lookup k' = m.lookup k' := by
  intro m
  induction m with
  | nil =>
    intro k k' v h
    simp only [mapSet, List.lookup]
    rw [show (k' == k) = false from beq_eq_false_iff_ne.mpr h]
  | cons e rest ih =>
    intro k k' v h
    obtain ⟨k₀, v₀⟩ := e
    by_cases h₀ : k₀ = k
    · subst h₀
      simp only [mapSet, if_pos rfl, List.lookup]
      rw [show (k' == k₀) = false from beq_eq_false_iff_ne.mpr h]
    · simp only [mapSet, if_neg h₀, List.lookup]
      cases hbe : (k' == k₀) with
      | true => rfl
      | false => exact ih k k' v h

theorem hrFold_of_not_mem :
    ∀ (l : List Nat) (c : Nat) (t : String) (m : CarryMap) (i : Nat), i ∉ l →
    ((l.foldl (fun m j => mapSet (c + j) t m) m).lookup (c + i)) = m.lookup (c + i) := by
  intro l
  induction l with
  | nil => intro _ _ _ _ _; rfl
  | cons s rest ih =>
    intro c t m i hi
    have hs : s ≠ i := fun he => hi (he ▸ List.mem_cons_self _ _)
    rw [List.foldl_cons, ih c t _ i (fun hm => hi (List.mem_cons_of_mem _ hm)),
      lookup_mapSet_ne _ _ _ _ (by omega)]

theorem hrFold_of_mem :
    ∀ (l : List Nat) (c : Nat) (t : String) (m : CarryMap) (i : Nat), i ∈ l → l.Nodup →
    ((l.foldl (fun m j => mapSet (c + j) t m) m).lookup (c + i)) = some t := by
  intro l
  induction l with
  | nil => intro _ _ _ _ h _; simp at h
  | cons s rest ih =>
    intro c t m i hi hnd
    rcases List.mem_cons.mp hi with he | hm
    · subst he
      rw [List.foldl_cons, hrFold_of_not_mem rest c t _ i (List.nodup_cons.mp hnd).1,
        lookup_mapSet_self]
    · rw [List.foldl_cons]
      exact ih c t _ i hm (List.nodup_cons.mp hnd).2

theorem handleRowspan_lookup (rs : CarryMap) (t : String) (c i colspan rowspan : Nat)
    (h1 : 1 < rowspan) (h2 : i < colspan) :
    (handleRowspan rs t c colspan rowspan).lookup (c + i) = some t := by
  rw [handleRowspan, if_pos (by omega)]
  exact hrFold_of_mem _ c t rs i (List.mem_range.mpr h2) (List.nodup_range _)

theorem flushLoop_append : ∀ (fuel : Nat) (rs : CarryMap) (row : List String) (c : Nat),
    ∃ s, (flushLoop fuel rs row c).2.1 = row ++ s := by
  intro fuel
  induction fuel with
  | zero => intro rs row c; exact ⟨[], by simp [flushLoop]⟩
  | succ f ih =>
    intro rs row c
    rw [flushLoop]
    cases h : rs.lookup c with
    | none => exact ⟨[], by simp⟩
    | some v =>
      obtain ⟨s, hs⟩ := ih (mapDelete c rs) (row ++ [v]) (c + 1)
      exact ⟨v :: s, by simpa using hs⟩

theorem flushLoop_head (fuel : Nat) (rs : CarryMap) (row : List String) (c : Nat)
    (v : String) (h : rs.lookup c = some v) (hf : 0 < fuel) :
    ∃ s, (flushLoop fuel rs row c).2.1 = row ++ v :: s := by
  cases fuel with
  | zero => omega
  | succ f =>
    rw [flushLoop, h]
    obtain ⟨s, hs⟩ := flushLoop_append f (mapDelete c rs) (row ++ [v]) (c + 1)
    exact ⟨s, by simpa using hs⟩

theorem flushCarries_append (rs : CarryMap) (row : List String) (c : Nat) :
    ∃ s, (flushCarries rs row c).2.1 = row ++ s :=
  flushLoop_append rs.length rs row c

theorem flushCarries_head (rs : CarryMap) (row : List String) (c : Nat) (v : String)
    (h : rs.lookup c = some v) :
    ∃ s, (flushCarries rs row c).2.1 = row ++ v :: s := by
  have hne : rs ≠ [] := by intro he; rw [he] at h; simp [List.lookup] at h
  exact flushLoop_head rs.length rs row c v h (List.length_pos.mpr hne)

theorem foldl_push_map (f : Nat → String) :
    ∀ (l : List Nat) (row : List String),
    l.foldl (fun r i => r ++ [f i]) row = row ++ l.map f := by
  intro l
  induction l with
  | nil => intro row; simp
  | cons x t ih => intro row; rw [List.foldl_cons, ih]; simp

theorem handleColspan_eq (row : List String) (t : String) (colspan : Nat) :
    handleColspan row t colspan =
      row ++ (List.range' 1 (colspan - 1)).map (fun i => t ++ "__C" ++ toString i) :=
  foldl_push_map _ _ row

theorem processCell_append (cell : HeaderCell) (row : List String) (rs : CarryMap)
    (c : Nat) (opts : HeaderOpts) :
    ∃ s, (processCell cell row rs c opts).1 = row ++ s := by
  obtain ⟨s₀, hs₀⟩ := flushCarries_append rs row c
  rw [processCell, handleColspan_eq]
  dsimp only
  exact ⟨_, by rw [hs₀, List.append_assoc, List.append_assoc]⟩

theorem processCell_head (cell : HeaderCell) (row : List String) (rs : CarryMap)
    (c : Nat) (opts : HeaderOpts) (t : String) (h : rs.lookup c = some t) :
    ∃ s, (processCell cell row rs c opts).1 = row ++ t :: s := by
  obtain ⟨s₀, hs₀⟩ := flushCarries_head rs row c t h
  rw [processCell, handleColspan_eq]
  dsimp only
  exact ⟨_, by rw [hs₀, List.append_assoc, List.append_assoc, List.cons_append]⟩

theorem foldCells_append (opts : HeaderOpts) :
    ∀ (cells : List HeaderCell) (st : List String × CarryMap × Nat),
    ∃ s, (cells.foldl (processCellStep opts) st).1 = st.1 ++ s := by
  intro cells
  induction cells with
  | nil => intro st; exact ⟨[], by simp⟩
  | cons cell rest ih =>
    intro st
    rw [List.foldl_cons]
    obtain ⟨s₁, hs₁⟩ := ih (processCellStep opts st cell)
    obtain ⟨s₀, hs₀⟩ := processCell_append cell st.1 st.2.1 st.2.2 opts
    refine ⟨s₀ ++ s₁, ?_⟩
    rw [hs₁, processCellStep, hs₀, List.append_assoc]

theorem processRow_head (cells : List HeaderCell) (rs : CarryMap) (opts : HeaderOpts)
    (t : String) (h : rs.lookup 0 = some t) :
    (processRow cells rs opts).1.get? 0 = some t := by
  cases cells with
  | nil =>
    obtain ⟨s, hs⟩ := flushCarries_head rs [] 0 t h
    rw [processRow]
    simp only [List.foldl_nil]
    rw [hs]
    rfl
  | cons cell rest =>
    rw [processRow]
    simp only [List.foldl_cons]
    obtain ⟨s₀, hs₀⟩ := processCell_head cell [] rs 0 opts t h
    obtain ⟨s₁, hs₁⟩ := foldCells_append opts rest (processCellStep opts ([], rs, 0) cell)
    obtain ⟨s₂, hs₂⟩ :=
      flushCarries_append (rest.foldl (processCellStep opts) (processCellStep opts ([], rs, 0) cell)).2.1
        (rest.foldl (processCellStep opts) (processCellStep opts ([], rs, 0) cell)).1
        (rest.foldl (processCellStep opts) (processCellStep opts ([], rs, 0) cell)).2.2
    rw [hs₂, hs₁]
    have : (processCellStep opts ([], rs, 0) cell).1 = t :: s₀ := by
      rw [processCellStep]
      simpa using hs₀
    rw [this]
    rfl

/-! ## Claim C2 -/

/-- C2, counterexample.  A header cell with text `"Average"` and rowspan 3 at
column 0: the claim requires `"Average"` at column 0 of both of the next two
materialized rows, but the carry entry is deleted when row 1 flushes it and is
never re-recorded, so row 2 starts with `"C"`, not `"Average"`. -/
theorem claim_C2_counterexample :
    getHeaderRows [[⟨"Average", 3, 1⟩, ⟨"X", 1, 1⟩], [⟨"B", 1, 1⟩], [⟨"C", 1, 1⟩]]
        defaultHeaderOpts =
      [["Average", "X"], ["Average", "B"], ["C"]] ∧
    (["C"] : List String).get? 0 ≠ some "Average" := by
  exact ⟨by rfl, by decide⟩

/-- C2, amended: a header cell with `rowspan = n > 1` records its text in the
carry map at columns `c … c+colspan−1`.  A pending carry is re-emitted when a
row's processing reaches its column: whenever processing stands at a column
holding a carried text, that text is pushed next (conjunct 2, any column);
since every row starts at column 0, a carry at column 0 is always re-emitted
at column 0 of the immediately following row (conjunct 3).  The entry is
deleted as it is flushed and never re-recorded, so it is emitted in at most
one later row — not in each of the next `n−1` rows — and a row whose cells
and trailing flush stop before the carried column leaves the carry pending
for a later row, as the skip trace of conjunct 4 shows (the rowspan-2 cell
`"C"` at column 2 skips the one-cell row and surfaces two rows below).  For
`n = 2` at column 0 this gives exactly the claim's `"Average"` example
(conjunct 5). -/
theorem claim_C2_amended :
    (∀ (rs : CarryMap) (t : String) (c i colspan rowspan : Nat),
      1 < rowspan → i < colspan →
      (handleRowspan rs t c colspan rowspan).lookup (c + i) = some t) ∧
    (∀ (cell : HeaderCell) (row : List String) (rs : CarryMap) (c : Nat)
      (opts : HeaderOpts) (t : String), rs.lookup c = some t →
      ∃ s, (processCell cell row rs c opts).1 = row ++ t :: s) ∧
    (∀ (cells : List HeaderCell) (rs : CarryMap) (opts : HeaderOpts) (t : String),
      rs.lookup 0 = some t → (processRow cells rs opts).1.get? 0 = some t) ∧
    getHeaderRows
        [[⟨"A", 1, 1⟩, ⟨"B", 1, 1⟩, ⟨"C", 2, 1⟩], [⟨"X", 1, 1⟩],
         [⟨"Y", 1, 1⟩, ⟨"Z", 1, 1⟩]] defaultHeaderOpts =
      [["A", "B", "C"], ["X"], ["Y", "Z", "C"]] ∧
    getHeaderRows [[⟨"Average", 2, 1⟩], [⟨"Height", 1, 1⟩]] defaultHeaderOpts =
      [["Average"], ["Average", "Height"]] := by
  refine ⟨?_, ?_, ?_, by rfl, by rfl⟩
  · intro rs t c i colspan rowspan h1 h2
    exact handleRowspan_lookup rs t c i colspan rowspan h1 h2
  · intro cell row rs c opts t h
    exact processCell_head cell row rs c opts t h
  · intro cells rs opts t h
    exact processRow_head cells rs opts t h

/-- C2, witness: the record part at a rowspan-2, colspan-1 cell, the
emit-on-reach part at a carry held at column 2 with processing standing
there, and the next-row part at a concrete carry map holding `"Average"` at
column 0. -/
theorem claim_C2_witness :
    (handleRowspan [] "Average" 0 1 2).lookup 0 = some "Average" ∧
    (∃ s, (processCell ⟨"W", 1, 1⟩ ["Y", "Z"] [(2, "C")] 2 defaultHeaderOpts).1 =
      ["Y", "Z"] ++ "C" :: s) ∧
    (processRow [⟨"Height", 1, 1⟩] [(0, "Average")] defaultHeaderOpts).1.get? 0 =
      some "Average" :=
  ⟨claim_C2_amended.1 [] "Average" 0 0 1 2 (by decide) (by decide),
   claim_C2_amended.2.1 ⟨"W", 1, 1⟩ ["Y", "Z"] [(2, "C")] 2 defaultHeaderOpts "C"
     (by decide),
   claim_C2_amended.2.2.1 [⟨"Height", 1, 1⟩] [(0, "Average")] defaultHeaderOpts "Average"
     (by decide)⟩

/-! ## Colspan marker lemmas -/

theorem markerAt_cons_marker (d : Char) (hd : d.isDigit = true) (rest : List Char) :
    markerAt ('_' :: '_' :: 'C' :: d :: rest) = true := by
  simp [markerAt, hd]

theorem hasMarker_append_marker :
    ∀ (t : List Char) (d : Char), d.isDigit = true → ∀ (rest : List Char),
    hasMarker (t ++ '_' :: '_' :: 'C' :: d :: rest) = true := by
  intro t
  induction t with
  | nil => intro d hd rest; simp [hasMarker, markerAt_cons_marker d hd rest]
  | cons a t' ih =>
    intro d hd rest
    rw [List.cons_append, hasMarker, ih d hd rest, Bool.or_true]

theorem markerAt_append_marker_false :
    ∀ (t : List Char), t ≠ [] → hasMarker t = false → ∀ (d : Char) (rest : List Char),
    markerAt (t ++ '_' :: '_' :: 'C' :: d :: rest) = false := by
  intro t
  match t with
  | [] => intro h; exact absurd rfl h
  | [a] => intro _ _ d rest; simp [markerAt]
  | [a, b] => intro _ _ d rest; simp [markerAt]
  | [a, b, c] => intro _ _ d rest; simp [markerAt]
  | a :: b :: c :: e :: t' =>
    intro _ hm d rest
    have : markerAt (a :: b :: c :: e :: t') = false := by
      rw [hasMarker] at hm
      exact (Bool.or_eq_false_iff.mp hm).1
    simpa [markerAt] using this

theorem stripFirstMarker_append_marker :
    ∀ (t : List Char), hasMarker t = false → ∀ (d : Char), d.isDigit = true →
    ∀ (rest : List Char),
    stripFirstMarker (t ++ '_' :: '_' :: 'C' :: d :: rest) = t ++ rest := by
  intro t
  induction t with
  | nil =>
    intro _ d hd rest
    simp [stripFirstMarker, markerAt_cons_marker d hd rest]
  | cons a t' ih =>
    intro hm d hd rest
    have hm' : hasMarker t' = false := by
      rw [hasMarker] at hm
      exact (Bool.or_eq_false_iff.mp hm).2
    have hma : markerAt (a :: (t' ++ '_' :: '_' :: 'C' :: d :: rest)) = false :=
      markerAt_append_marker_false (a :: t') (by simp) hm d rest
    rw [List.cons_append, stripFirstMarker, if_neg (by simp [hma]), ih hm' d hd rest]
    rfl

/-! ## Decimal representation of a natural number: nonempty, all digits -/

theorem digitChar_isDigit (m : Nat) (h : m < 10) : (Nat.digitChar m).isDigit = true := by
  interval_cases m <;> decide

theorem toDigitsCore_all_digits :
    ∀ (fuel n : Nat) (ds : List Char), (∀ c ∈ ds, c.isDigit = true) →
    ∀ c ∈ Nat.toDigitsCore 10 fuel n ds, c.isDigit = true := by
  intro fuel
  induction fuel with
  | zero => intro n ds h; simpa [Nat.toDigitsCore] using h
  | succ f ih =>
    intro n ds h
    rw [Nat.toDigitsCore]
    have hds : ∀ c ∈ Nat.digitChar (n % 10) :: ds, c.isDigit = true := by
      intro c hc
      rcases List.mem_cons.mp hc with he | hm
      · exact he ▸ digitChar_isDigit _ (Nat.mod_lt n (by decide))
      · exact h c hm
    by_cases hz : n / 10 = 0
    · simpa [hz] using hds
    · simpa [hz] using ih (n / 10) _ hds

theorem toDigitsCore_length_lt :
    ∀ (fuel n : Nat) (ds : List Char), 0 < fuel →
    ds.length < (Nat.toDigitsCore 10 fuel n ds).length := by
  intro fuel
  induction fuel with
  | zero => intro n ds h; omega
  | succ f ih =>
    intro n ds _
    rw [show Nat.toDigitsCore 10 (f + 1) n ds =
      (if n / 10 = 0 then Nat.digitChar (n % 10) :: ds
       else Nat.toDigitsCore 10 f (n / 10) (Nat.digitChar (n % 10) :: ds)) from rfl]
    by_cases hz : n / 10 = 0
    · rw [if_pos hz]; simp
    · rw [if_neg hz]
      cases f with
      | zero =>
        rw [show Nat.toDigitsCore 10 0 (n / 10) (Nat.digitChar (n % 10) :: ds) =
          Nat.digitChar (n % 10) :: ds from rfl]
        simp
      | succ f' =>
        have h2 := ih (n / 10) (Nat.digitChar (n % 10) :: ds) (Nat.succ_pos f')
        simp only [List.length_cons] at h2
        omega

theorem natToString_head (n : Nat) :
    ∃ d r, (toString n).data = d :: r ∧ d.isDigit = true := by
  have hdata : (toString n).data = Nat.toDigitsCore 10 (n + 1) n [] := rfl
  have hlen : (0 : Nat) < (Nat.toDigitsCore 10 (n + 1) n []).length := by
    simpa using toDigitsCore_length_lt (n + 1) n [] (Nat.succ_pos n)
  cases hl : Nat.toDigitsCore 10 (n + 1) n [] with
  | nil => rw [hl] at hlen; simp at hlen
  | cons d r =>
    refine ⟨d, r, by rw [hdata, hl], ?_⟩
    have := toDigitsCore_all_digits (n + 1) n [] (by simp) d
    rw [hl] at this
    exact this (List.mem_cons_self _ _)

theorem toString_digit_of_le9 (i : Nat) (h1 : 1 ≤ i) (h9 : i ≤ 9) :
    ∃ d, (toString i).data = [d] ∧ d.isDigit = true := by
  interval_cases i <;> exact ⟨_, rfl, by decide⟩

/-! ## Single-cell header pipeline -/

theorem processRow_single (t : String) (k : Nat) (opts : HeaderOpts)
    (h : opts.emptyCellReplacement = false) :
    processRow [⟨t, 1, k⟩] [] opts =
      (t :: (List.range' 1 (k - 1)).map (fun i => t ++ "__C" ++ toString i), []) := by
  simp [processRow, processCellStep, processCell, flushCarries, flushLoop,
    handleColspan_eq, handleRowspan, h]

theorem headerRow_single_materialized (t : String) (k : Nat) (opts : HeaderOpts)
    (h : opts.emptyCellReplacement = false) :
    processRowsAux [[⟨t, 1, k⟩]] [] opts =
      [t :: (List.range' 1 (k - 1)).map (fun i => t ++ "__C" ++ toString i)] := by
  simp [processRowsAux, processRow_single t k opts h]

theorem entry_data (t : String) (i : Nat) :
    (t ++ "__C" ++ toString i).data = t.data ++ '_' :: '_' :: 'C' :: (toString i).data := by
  rw [String.data_append, String.data_append,
    show ("__C" : String).data = ['_', '_', 'C'] from rfl]
  simp

theorem entry_hasMarker (t : String) (i : Nat) :
    hasMarkerS (t ++ "__C" ++ toString i) = true := by
  obtain ⟨d, r, hd, hdig⟩ := natToString_head i
  rw [hasMarkerS, entry_data, hd]
  exact hasMarker_append_marker t.data d hdig r

theorem map_const_replicate (t : String) :
    ∀ (l : List Nat), l.map (fun _ => t) = List.replicate l.length t := by
  intro l
  induction l with
  | nil => rfl
  | cons x r ih =>
    rw [List.map_cons, ih, List.length_cons, List.replicate_succ]

theorem entry_strip (t : String) (ht : hasMarkerS t = false) (i : Nat)
    (h1 : 1 ≤ i) (h9 : i ≤ 9) :
    stripFirstMarkerS (t ++ "__C" ++ toString i) = t := by
  obtain ⟨d, hd, hdig⟩ := toString_digit_of_le9 i h1 h9
  rw [stripFirstMarkerS, entry_data, hd,
    show ('_' :: '_' :: 'C' :: [d] : List Char) = '_' :: '_' :: 'C' :: d :: [] from rfl,
    stripFirstMarker_append_marker t.data ht d hdig []]
  simp

/-! ## Claim C6 -/

/-- C6, counterexample.  A header cell with text `"A"` and colspan 11, with
colspan enabled and suffixing disabled: the strip pass deletes only the first
`/__C\d/` match (one digit), so the synthetic cell `"A__C10"` becomes `"A0"`,
not `"A"` — the claim's "all k entries equal t" fails for k = 11. -/
theorem claim_C6_counterexample :
    getHeaderRows [[⟨"A", 1, 11⟩]] colspanPlainOpts =
      [["A", "A", "A", "A", "A", "A", "A", "A", "A", "A", "A0"]] ∧
    ("A0" : String) ≠ "A" := by
  exact ⟨by rfl, by decide⟩

/-- C6, amended: a header cell with text `t` and colspan `k` contributes `k`
entries.  With colspan and suffixing enabled these are
`t, t__C1, …, t__C(k−1)` (any `t`, any `k`).  With colspan enabled and
suffixing disabled, the post-pass deletes the first `__C`-plus-one-digit
match from each entry, so all `k` entries equal `t` provided `k ≤ 10` and `t`
itself contains no `__C<digit>` substring; for `k ≥ 11` a trailing digit
survives (see the counterexample).  With colspan disabled only the first
entry `t` survives (any `k`, `t` without the marker). -/
theorem claim_C6_amended :
    (∀ (t : String) (k : Nat),
      getHeaderRows [[⟨t, 1, k⟩]] colspanSuffixedOpts =
        [t :: (List.range' 1 (k - 1)).map (fun i => t ++ "__C" ++ toString i)]) ∧
    (∀ (t : String) (k : Nat), 0 < k → k ≤ 10 → hasMarkerS t = false →
      getHeaderRows [[⟨t, 1, k⟩]] colspanPlainOpts = [List.replicate k t]) ∧
    (∀ (t : String) (k : Nat), hasMarkerS t = false →
      getHeaderRows [[⟨t, 1, k⟩]] defaultHeaderOpts = [[t]]) := by
  refine ⟨?_, ?_, ?_⟩
  · intro t k
    rw [getHeaderRows, headerRow_single_materialized t k _ rfl]
    simp [applyColspanOptions, applyDuplicateSuffix, colspanSuffixedOpts]
  · intro t k h0 h10 ht
    obtain ⟨k', rfl⟩ : ∃ k', k = k' + 1 := ⟨k - 1, by omega⟩
    rw [getHeaderRows, headerRow_single_materialized t (k' + 1) _ rfl]
    simp only [applyColspanOptions, applyDuplicateSuffix, colspanPlainOpts,
      Bool.not_true, Bool.not_false, if_true, if_false, Bool.false_eq_true]
    rw [removeColspanSuffix]
    simp only [List.map_cons, List.map_nil, List.map_map, Nat.add_sub_cancel]
    have hmap : (List.range' 1 k').map
        ((fun s => if hasMarkerS s then stripFirstMarkerS s else s) ∘
          (fun i => t ++ "__C" ++ toString i)) =
        (List.range' 1 k').map (fun _ => t) := by
      apply List.map_congr_left
      intro i hi
      have hb := List.mem_range'_1.mp hi
      have h9 : i ≤ 9 := by omega
      simp only [Function.comp_apply, entry_hasMarker t i, if_true,
        entry_strip t ht i hb.1 h9]
    rw [hmap, map_const_replicate t, List.replicate_succ]
    simp [ht, List.length_range']
  · intro t k ht
    rw [getHeaderRows, headerRow_single_materialized t k _ rfl]
    simp only [applyColspanOptions, applyDuplicateSuffix, defaultHeaderOpts,
      Bool.not_false, if_true]
    rw [removeColspanCells]
    simp only [List.map_cons, List.map_nil]
    have hfil : (t :: (List.range' 1 (k - 1)).map (fun i => t ++ "__C" ++ toString i)).filter
        (fun s => !hasMarkerS s) = [t] := by
      rw [List.filter_cons]
      simp only [ht, Bool.not_false, if_true]
      rw [List.filter_eq_nil_iff.mpr]
      intro a ha
      obtain ⟨i, _, rfl⟩ := List.mem_map.mp ha
      simp [entry_hasMarker t i]
    rw [hfil, removeColspanSuffix]
    simp [ht]

/-- C6, witness: the amended theorem at the spec's own example — text
`"Color Combination"`, colspan 3 — in all three option modes. -/
theorem claim_C6_witness :
    getHeaderRows [[⟨"Color Combination", 1, 3⟩]] colspanSuffixedOpts =
      ["Color Combination" ::
        (List.range' 1 (3 - 1)).map (fun i => "Color Combination" ++ "__C" ++ toString i)] ∧
    getHeaderRows [[⟨"Color Combination", 1, 3⟩]] colspanPlainOpts =
      [List.replicate 3 "Color Combination"] ∧
    getHeaderRows [[⟨"Color Combination", 1, 3⟩]] defaultHeaderOpts =
      [["Color Combination"]] :=
  ⟨claim_C6_amended.1 "Color Combination" 3,
   claim_C6_amended.2.1 "Color Combination" 3 (by decide) (by decide) (by decide),
   claim_C6_amended.2.2 "Color Combination" 3 (by decide)⟩

/-! ## Claim C7 -/

/-- C7, counterexample.  An attribute that is present with the raw value `""`
does not parse as an integer (`parseInt("") = NaN`), so the claim requires the
strict parser to fail on it; but `attr || "1"` treats the empty string like an
absent attribute and the parser silently returns 1. -/
theorem claim_C7_counterexample :
    parseSpanAttributes (some "") none = .ok (1, 1) ∧ parseIntJs "" = none := by
  exact ⟨by rfl, by rfl⟩

/-- C7, amended: the strict parser returns `rowspan = colspan = 1` when an
attribute is absent — or present but empty, which `attr || "1"` cannot
distinguish from absent — and fails, naming the offending attribute and its
raw string value, whenever a present non-empty attribute does not parse as an
integer (`parseInt` yields `NaN`) or parses to a value below 1. -/
theorem claim_C7_amended :
    (parseSpanAttributes none none = .ok (1, 1)) ∧
    (parseSpanAttributes (some "") (some "") = .ok (1, 1)) ∧
    (∀ (s : String) (c : Option String), s ≠ "" →
      (parseIntJs s = none ∨ ∃ n, parseIntJs s = some n ∧ n < 1) →
      parseSpanAttributes (some s) c =
        .error ("Invalid rowspan attribute: \"" ++ s ++ "\". Expected positive integer.")) ∧
    (∀ (s : String) (r : Option String) (m : Int),
      parseIntJs (attrOrOne r) = some m → 1 ≤ m → s ≠ "" →
      (parseIntJs s = none ∨ ∃ n, parseIntJs s = some n ∧ n < 1) →
      parseSpanAttributes r (some s) =
        .error ("Invalid colspan attribute: \"" ++ s ++ "\". Expected positive integer.")) := by
  refine ⟨by rfl, by rfl, ?_, ?_⟩
  · intro s c hs hbad
    rw [parseSpanAttributes]
    have ha : attrOrOne (some s) = s := by simp [attrOrOne, hs]
    rcases hbad with hnone | ⟨n, hn, hlt⟩
    · rw [ha, hnone]
      simp [attrRaw]
    · rw [ha, hn]
      simp [attrRaw, hlt]
  · intro s r m hm hmge hs hbad
    rw [parseSpanAttributes]
    have ha : attrOrOne (some s) = s := by simp [attrOrOne, hs]
    rw [hm]
    dsimp only
    rw [if_neg (by omega)]
    rcases hbad with hnone | ⟨n, hn, hlt⟩
    · rw [ha, hnone]
      simp [attrRaw]
    · rw [ha, hn]
      simp [attrRaw, hlt]

/-- C7, witness: the spec's boundary values — `"0"` as rowspan and `"-5"` as
colspan each fail with the error naming the attribute and raw value, and
absent attributes default to 1. -/
theorem claim_C7_witness :
    parseSpanAttributes (some "0") none =
      .error ("Invalid rowspan attribute: \"" ++ "0" ++ "\". Expected positive integer.") ∧
    parseSpanAttributes none (some "-5") =
      .error ("Invalid colspan attribute: \"" ++ "-5" ++ "\". Expected positive integer.") :=
  ⟨claim_C7_amended.2.2.1 "0" none (by decide) (Or.inr ⟨0, by rfl, by decide⟩),
   claim_C7_amended.2.2.2 "-5" none 1 (by rfl) (by decide) (by decide)
     (Or.inr ⟨-5, by rfl, by decide⟩)⟩

/-! ## Claim C8 -/

/-- C8, counterexample.  The lenient variant does not coerce invalid values
to 1: a non-numeric rowspan string yields `NaN` (`none`), and the non-positive
string `"0"` is passed through as 0. -/
theorem claim_C8_counterexample :
    parseSpanAttributesLenient (some "abc") (some "0") = (none, some 0) ∧
    (none : Option Int) ≠ some 1 ∧ ¬(1 : Int) ≤ 0 := by
  exact ⟨by rfl, by decide, by decide⟩

/-- C8, amended: the lenient variant completes without failing on every pair
of attribute strings; it returns 1 where an attribute is absent or the empty
string, but it does not coerce other invalid values — the raw `parseInt`
result is passed through, so non-numeric strings yield `NaN` and non-positive
strings their non-positive parsed value. -/
theorem claim_C8_amended :
    (parseSpanAttributesLenient none none = (some 1, some 1)) ∧
    (parseSpanAttributesLenient (some "") (some "") = (some 1, some 1)) ∧
    (∀ (s : String) (c : Option String), s ≠ "" →
      (parseSpanAttributesLenient (some s) c).1 = parseIntJs s) ∧
    (parseSpanAttributesLenient (some "0") none = (some 0, some 1) ∧
     parseSpanAttributesLenient (some "-5") none = (some (-5), some 1) ∧
     parseSpanAttributesLenient (some "abc") none = (none, some 1)) := by
  refine ⟨by rfl, by rfl, ?_, by rfl, by rfl, by rfl⟩
  intro s c hs
  rw [parseSpanAttributesLenient]
  simp [attrOrOne, hs]

/-- C8, witness: the pass-through part of the amended claim at the invalid
value `"0"`, which the claim as written would have coerced to 1. -/
theorem claim_C8_witness :
    (parseSpanAttributesLenient (some "0") (some "7")).1 = parseIntJs "0" :=
  claim_C8_amended.2.2.1 "0" (some "7") (by decide)

/-! ## Claim C4 -/

/-- C4: `castContent` on the empty string.  `Number("")` is 0 and 0 is not
`NaN`, so the empty string is classified as a number and cast to 0 — for any
behavior of the environment's `Date.parse`, since the date pattern cannot
match `""`.  This contradicts the claim (and the repository's own unit test
for the same-named utility), which require `""` to map to `""`. -/
theorem claim_C4_empty_string (dateParse : String → Bool) :
    castContent dateParse "" = .num (.val 0) ∧ castContent dateParse "" ≠ .str "" := by
  have hmain : castContent dateParse "" = .num (.val 0) := by
    simp only [castContent, show hasDatePatternS "" = false from by decide, Bool.and_false]
    decide
  exact ⟨hmain, by rw [hmain]; decide⟩

/-- C4, witness: the evaluation at the failing input with a concrete
`Date.parse` stand-in. -/
theorem claim_C4_witness :
    castContent (fun _ => true) "" = .num (.val 0) ∧
    castContent (fun _ => true) "" ≠ .str "" :=
  claim_C4_empty_string (fun _ => true)

/-! ## Substring-search lemmas for the poller -/

theorem isPre_append_self : ∀ (p b : List Char), isPre p (p ++ b) = true := by
  intro p
  induction p with
  | nil => intro b; rfl
  | cons q ps ih => intro b; simp [isPre, ih b]

theorem isPre_length : ∀ (p l : List Char), isPre p l = true → p.length ≤ l.length := by
  intro p
  induction p with
  | nil => intro l _; simp
  | cons q ps ih =>
    intro l h
    cases l with
    | nil => simp [isPre] at h
    | cons x xs =>
      rw [isPre, Bool.and_eq_true] at h
      simpa using ih xs h.2

theorem isPre_take : ∀ (p l : List Char), isPre p l = true → l.take p.length = p := by
  intro p
  induction p with
  | nil => intro l _; rfl
  | cons q ps ih =>
    intro l h
    cases l with
    | nil => simp [isPre] at h
    | cons x xs =>
      rw [isPre, Bool.and_eq_true, beq_iff_eq] at h
      rw [List.length_cons, List.take_succ_cons, ih xs h.2, h.1]

theorem isPre_of_take : ∀ (p l : List Char), l.take p.length = p → isPre p l = true := by
  intro p
  induction p with
  | nil => intro l _; rfl
  | cons q ps ih =>
    intro l h
    cases l with
    | nil => simp at h
    | cons x xs =>
      rw [List.length_cons, List.take_succ_cons, List.cons.injEq] at h
      rw [isPre, Bool.and_eq_true, beq_iff_eq]
      exact ⟨h.1.symm, ih xs h.2⟩

theorem idxOf?_of_isPre (l pat : List Char) (hp : isPre pat l = true) :
    idxOf? l pat = some 0 := by
  cases l <;> rw [idxOf?, if_pos hp]

theorem idxOf?_none_head (l pat : List Char) (h : idxOf? l pat = none) :
    isPre pat l = false := by
  rcases Bool.eq_false_or_eq_true (isPre pat l) with ht | hf
  · rw [idxOf?_of_isPre l pat ht] at h
    simp at h
  · exact hf

theorem idxOf?_none_tail (x : Char) (t pat : List Char) (h : idxOf? (x :: t) pat = none) :
    idxOf? t pat = none := by
  have hp := idxOf?_none_head (x :: t) pat h
  rw [idxOf?, hp] at h
  simpa using h

theorem selfOverlapFree_spec (pat : List Char) (h : selfOverlapFree pat = true)
    (j : Nat) (h0 : 0 < j) (hj : j < pat.length) : isPre (pat.drop j) pat = false := by
  rw [selfOverlapFree, List.all_eq_true] at h
  have hji := h j (List.mem_range.mpr hj)
  rw [Bool.or_eq_true] at hji
  rcases hji with h1 | h2
  · have : j = 0 := by simpa using h1
    omega
  · simpa using h2

theorem idxOf?_append_boundary :
    ∀ (a pat b : List Char), pat ≠ [] → selfOverlapFree pat = true →
    idxOf? a pat = none → idxOf? (a ++ (pat ++ b)) pat = some a.length := by
  intro a
  induction a with
  | nil =>
    intro pat b _ _ _
    rw [List.nil_append, idxOf?_of_isPre _ _ (isPre_append_self pat b)]
    rfl
  | cons x a' ih =>
    intro pat b hne hov hnone
    have hpre : isPre pat ((x :: a') ++ (pat ++ b)) = false := by
      by_cases hp : isPre pat ((x :: a') ++ (pat ++ b)) = true
      · exfalso
        have htake := isPre_take pat _ hp
        rcases le_or_lt pat.length (x :: a').length with hle | hgt
        · have heq : ((x :: a') ++ (pat ++ b)).take pat.length = (x :: a').take pat.length :=
            List.take_append_of_le_length hle
          have : isPre pat (x :: a') = true :=
            isPre_of_take pat (x :: a') (by rw [← heq, htake])
          rw [idxOf?_of_isPre _ _ this] at hnone
          simp at hnone
        · set j := (x :: a').length with hj
          have hm : pat.length - j ≤ pat.length := Nat.sub_le _ _
          have heq2 : ((x :: a') ++ (pat ++ b)).take pat.length =
              (x :: a') ++ (pat.take (pat.length - j)) := by
            rw [List.take_append_eq_append_take,
              List.take_of_length_le (by omega), List.take_append_of_le_length (by omega)]
          have hpat : pat = (x :: a') ++ pat.take (pat.length - j) :=
            htake.symm.trans heq2
          have hdrop : pat.drop j = pat.take (pat.length - j) := by
            have hcg := congrArg (List.drop j) hpat
            rwa [hj, List.drop_left] at hcg
          have hiso : isPre (pat.drop j) pat = true := by
            apply isPre_of_take
            rw [hdrop, List.length_take, Nat.min_eq_left hm]
          have := selfOverlapFree_spec pat hov j (by simp [hj]) (by omega)
          rw [hiso] at this
          exact absurd this (by simp)
      · simpa using hp
    have hres := ih pat b hne hov (idxOf?_none_tail x a' pat hnone)
    rw [show (x :: a') ++ (pat ++ b) = x :: (a' ++ (pat ++ b)) from rfl] at hpre ⊢
    rw [idxOf?, hpre]
    simp [hres]

theorem wrappedMessage_ne_nil (context : Option (List Char)) (lastMsg : List Char) :
    wrappedMessage context lastMsg ≠ [] := by
  cases context <;> simp [wrappedMessage]

theorem containsSub_cons (x : Char) (l pat : List Char) :
    containsSub (x :: l) pat = (isPre pat (x :: l) || containsSub l pat) := by
  rw [containsSub, containsSub, idxOf?]
  cases hp : isPre pat (x :: l) with
  | true => simp
  | false => simp [Option.isSome_map]

theorem containsSub_append_self (pat x : List Char) :
    containsSub (pat ++ x) pat = true := by
  rw [containsSub, idxOf?_of_isPre _ _ (isPre_append_self pat x)]
  rfl

/-! ## Claim C5 -/

/-- C5: when the poller's deadline elapses, the raised message is exactly the
wrapped last failure — the retry primitive's call-log section is cut off at
its boundary — and it carries the `[Context: …]` tag exactly when a context
label was supplied.  The hypotheses say the last failure message does not
itself contain the call-log separator (h1) or a context tag (h2). -/
theorem claim_C5_poll_failure (context : Option (List Char)) (lastMsg log : List Char)
    (h1 : idxOf? (wrappedMessage context lastMsg) callLogMarker = none)
    (h2 : containsSub lastMsg ("[Context: ".data) = false) :
    pollFailureMessage context lastMsg log = wrappedMessage context lastMsg ∧
    containsSub (pollFailureMessage context lastMsg log) ("[Context: ".data) =
      context.isSome := by
  have hmain : pollFailureMessage context lastMsg log = wrappedMessage context lastMsg := by
    rw [pollFailureMessage, toPassTimeoutMessage, stripCallLog,
      show wrappedMessage context lastMsg ++ callLogMarker ++ log =
        wrappedMessage context lastMsg ++ (callLogMarker ++ log) from List.append_assoc _ _ _,
      idxOf?_append_boundary (wrappedMessage context lastMsg) callLogMarker log
        (by decide) (by decide) h1]
    dsimp only
    rw [if_pos (List.length_pos.mpr (wrappedMessage_ne_nil context lastMsg))]
    exact List.take_left _ _
  refine ⟨hmain, ?_⟩
  rw [hmain]
  cases context with
  | none =>
    rw [show wrappedMessage none lastMsg = '\n' :: lastMsg from rfl, containsSub_cons,
      show ("[Context: " : String).data = '[' :: "Context: ".data from rfl, isPre]
    simp [h2]
  | some c =>
    rw [show wrappedMessage (some c) lastMsg =
        '\n' :: ("[Context: ".data ++ (c ++ ("]\n".data ++ lastMsg))) from by
      simp [wrappedMessage],
      containsSub_cons, containsSub_append_self]
    simp

/-- C5, witness: a concrete context label and failure message; the raised
message is the wrapped failure and carries the context tag. -/
theorem claim_C5_witness :
    pollFailureMessage (some "Validating table structure".data) "Header not found".data
        "\n- attempt 1 failed".data =
      wrappedMessage (some "Validating table structure".data) "Header not found".data ∧
    containsSub
      (pollFailureMessage (some "Validating table structure".data) "Header not found".data
        "\n- attempt 1 failed".data) ("[Context: ".data) =
      (some "Validating table structure".data).isSome :=
  claim_C5_poll_failure (some "Validating table structure".data) "Header not found".data
    "\n- attempt 1 failed".data (by decide) (by decide)

/-! ## Claim C3 -/

/-- C3, counterexample.  Options with `checkInterval = 200`,
`stabilityDuration = 100`, `timeout = 1000` violate the claimed precondition
`checkInterval ≤ stabilityDuration / 2`, yet `waitForStable` does not fail
fast: it polls, takes snapshots and returns success on a trace whose two
snapshots agree. -/
theorem claim_C3_counterexample :
    ((200 : Int) > 100 / 2) ∧
    waitForStable ⟨some 100, some 200, some 1000⟩ 0
      [⟨0, some "S", 0⟩, ⟨200, some "S", 200⟩] = .stable 200 := by
  exact ⟨by decide, by rfl⟩

/-- C3, amended: `waitForStable` performs no option validation at all; it
proceeds to polling for any option values.  The only fail-fast behavior is
arithmetic: a non-positive timeout makes the `while` guard false at the first
tick, so the loop body never runs and the generic stabilization-timeout error
is raised without taking a snapshot. -/
theorem claim_C3_amended (opts : WFSOptions) (startTime : Int) (ticks : List Tick)
    (h1 : opts.timeout.getD 30000 ≤ 0)
    (h2 : ∀ t ∈ ticks, startTime ≤ t.guardTime) :
    waitForStable opts startTime ticks = .timeout := by
  rw [waitForStable]
  cases ticks with
  | nil => rfl
  | cons t rest =>
    rw [wfsLoop, if_neg ?_]
    have := h2 t (List.mem_cons_self _ _)
    omega

/-- C3, witness: the amended theorem at `timeout = 0` on a one-tick trace. -/
theorem claim_C3_witness :
    waitForStable ⟨some 100, some 50, some 0⟩ 0 [⟨5, some "S", 5⟩] = .timeout :=
  claim_C3_amended ⟨some 100, some 50, some 0⟩ 0 [⟨5, some "S", 5⟩] (by decide) (by decide)

/-! ## Claim C9 -/

theorem window_shift (t : Tick) (rest : List Tick) (sd : Int) (s : String) (k : Nat)
    (tk : Tick)
    (hw : ∃ (j : Nat) (tj : Tick), j ≤ k ∧ rest.get? j = some tj ∧
      sd ≤ tk.obsTime - tj.obsTime ∧
      (∀ (i : Nat) (ti : Tick), j ≤ i → i ≤ k → rest.get? i = some ti →
        ti.result = some s)) :
    ∃ (j : Nat) (tj : Tick), j ≤ k + 1 ∧ (t :: rest).get? j = some tj ∧
      sd ≤ tk.obsTime - tj.obsTime ∧
      (∀ (i : Nat) (ti : Tick), j ≤ i → i ≤ k + 1 → (t :: rest).get? i = some ti →
        ti.result = some s) := by
  obtain ⟨j, tj, hjk, hgj, hsd, hall⟩ := hw
  refine ⟨j + 1, tj, by omega, by simpa using hgj, hsd, ?_⟩
  intro i ti hji hik hgi
  cases i with
  | zero => omega
  | succ m => exact hall m ti (by omega) (by omega) (by simpa using hgi)

/-- The stability-window soundness invariant of the `waitForStable` loop:
whenever the loop returns `stable T`, some tick `k` of the trace produced the
final snapshot at time `T`, and either a full equal-snapshot window exists
inside the trace, or the pending state handed to the loop (`last`, `sst`)
already carried the snapshot and the window extends it. -/
theorem wfsLoop_stable_window :
    ∀ (ticks : List Tick) (sd tmo st : Int) (last : Option String) (sst : Option Int)
      (T : Int),
    wfsLoop sd tmo st ticks last sst = .stable T →
    ∃ (s : String) (k : Nat) (tk : Tick),
      ticks.get? k = some tk ∧ tk.result = some s ∧ T = tk.obsTime ∧
      ((∃ (j : Nat) (tj : Tick), j ≤ k ∧ ticks.get? j = some tj ∧
          sd ≤ tk.obsTime - tj.obsTime ∧
          (∀ (i : Nat) (ti : Tick), j ≤ i → i ≤ k → ticks.get? i = some ti →
            ti.result = some s)) ∨
       (∃ t0, last = some s ∧ sst = some t0 ∧ sd ≤ tk.obsTime - t0 ∧
          (∀ (i : Nat) (ti : Tick), i ≤ k → ticks.get? i = some ti →
            ti.result = some s))) := by
  intro ticks
  induction ticks with
  | nil => intro sd tmo st last sst T h; simp [wfsLoop] at h
  | cons t rest ih =>
    intro sd tmo st last sst T heq
    rw [wfsLoop] at heq
    by_cases hg : t.guardTime - st < tmo
    · rw [if_pos hg] at heq
      cases hres : t.result with
      | none =>
        rw [hres] at heq
        obtain ⟨s, k, tk, hgk, hrk, hT, hdisj⟩ := ih sd tmo st none none T heq
        refine ⟨s, k + 1, tk, by simpa using hgk, hrk, hT, Or.inl ?_⟩
        rcases hdisj with hw | ⟨t0, habs, _⟩
        · exact window_shift t rest sd s k tk hw
        · exact absurd habs (by simp)
      | some cur =>
        rw [hres] at heq
        cases hlast : last with
        | none =>
          rw [hlast] at heq
          dsimp only at heq
          obtain ⟨s, k, tk, hgk, hrk, hT, hdisj⟩ :=
            ih sd tmo st (some cur) (some t.obsTime) T heq
          refine ⟨s, k + 1, tk, by simpa using hgk, hrk, hT, Or.inl ?_⟩
          rcases hdisj with hw | ⟨t0, hs, ht0, hsd, hall⟩
          · exact window_shift t rest sd s k tk hw
          · have hcs : cur = s := by simpa using hs
            have ht0e : t0 = t.obsTime := by simpa using ht0.symm
            refine ⟨0, t, by omega, rfl, by rw [← ht0e]; exact hsd, ?_⟩
            intro i ti _ hik hgi
            cases i with
            | zero =>
              have hti : ti = t := by
                have hx := hgi
                simp at hx
                exact hx.symm
              rw [hti, hres, hcs]
            | succ m => exact hall m ti (by omega) (by simpa using hgi)
        | some lastv =>
          rw [hlast] at heq
          dsimp only at heq
          by_cases hcur : cur = lastv
          · rw [if_pos hcur] at heq
            by_cases hsd : sd ≤ t.obsTime - sst.getD t.obsTime
            · rw [if_pos hsd] at heq
              have hTt : T = t.obsTime := by
                injection heq with h
                exact h.symm
              cases hsst : sst with
              | none =>
                refine ⟨cur, 0, t, rfl, hres, hTt, Or.inl ⟨0, t, le_refl 0, rfl, ?_, ?_⟩⟩
                · rw [hsst] at hsd
                  simpa using hsd
                · intro i ti _ hik hgi
                  have hi0 : i = 0 := by omega
                  subst hi0
                  have hti : ti = t := by
                    have hx := hgi
                    simp at hx
                    exact hx.symm
                  rw [hti, hres]
              | some t0 =>
                refine ⟨lastv, 0, t, rfl, by rw [hres, hcur], hTt,
                  Or.inr ⟨t0, rfl, rfl, ?_, ?_⟩⟩
                · rw [hsst] at hsd
                  simpa using hsd
                · intro i ti hik hgi
                  have hi0 : i = 0 := by omega
                  subst hi0
                  have hti : ti = t := by
                    have hx := hgi
                    simp at hx
                    exact hx.symm
                  rw [hti, hres, hcur]
            · rw [if_neg hsd] at heq
              obtain ⟨s, k, tk, hgk, hrk, hT, hdisj⟩ :=
                ih sd tmo st (some lastv) sst T heq
              rcases hdisj with hw | ⟨t0, hs, ht0, hsd2, hall⟩
              · exact ⟨s, k + 1, tk, by simpa using hgk, hrk, hT,
                  Or.inl (window_shift t rest sd s k tk hw)⟩
              · have hls : lastv = s := by simpa using hs
                refine ⟨s, k + 1, tk, by simpa using hgk, hrk, hT,
                  Or.inr ⟨t0, by rw [hls], ht0, hsd2, ?_⟩⟩
                intro i ti hik hgi
                cases i with
                | zero =>
                  have hti : ti = t := by
                    have hx := hgi
                    simp at hx
                    exact hx.symm
                  rw [hti, hres, hcur, hls]
                | succ m => exact hall m ti (by omega) (by simpa using hgi)
          · rw [if_neg hcur] at heq
            obtain ⟨s, k, tk, hgk, hrk, hT, hdisj⟩ :=
              ih sd tmo st (some cur) (some t.obsTime) T heq
            refine ⟨s, k + 1, tk, by simpa using hgk, hrk, hT, Or.inl ?_⟩
            rcases hdisj with hw | ⟨t0, hs, ht0, hsd2, hall⟩
            · exact window_shift t rest sd s k tk hw
            · have hcs : cur = s := by simpa using hs
              have ht0e : t0 = t.obsTime := by simpa using ht0.symm
              refine ⟨0, t, by omega, rfl, by rw [← ht0e]; exact hsd2, ?_⟩
              intro i ti _ hik hgi
              cases i with
              | zero =>
                have hti : ti = t := by
                  have hx := hgi
                  simp at hx
                  exact hx.symm
                rw [hti, hres, hcs]
              | succ m => exact hall m ti (by omega) (by simpa using hgi)
    · rw [if_neg hg] at heq
      simp at heq

/-- C9: `waitForStable` succeeds only after a full stability window.  First
conjunct: a successful run ending at time `T` exhibits ticks `j ≤ k` such
that `T` is tick `k`'s observation time, at least `stabilityDuration`
milliseconds separate tick `j` from tick `k`, and every materialization from
`j` through `k` produced the same snapshot (in particular none failed — a
differing snapshot or a failure would have reset the run).  Second conjunct:
a failed materialization is treated as having no snapshot yet — the loop
clears its state and keeps polling instead of raising. -/
theorem claim_C9_stability_window :
    (∀ (opts : WFSOptions) (st : Int) (ticks : List Tick) (T : Int),
      waitForStable opts st ticks = .stable T →
      ∃ (s : String) (j k : Nat) (tj tk : Tick),
        j ≤ k ∧ ticks.get? j = some tj ∧ ticks.get? k = some tk ∧ T = tk.obsTime ∧
        opts.stabilityDuration.getD 500 ≤ tk.obsTime - tj.obsTime ∧
        (∀ (i : Nat) (ti : Tick), j ≤ i → i ≤ k → ticks.get? i = some ti →
          ti.result = some s)) ∧
    (∀ (sd tmo st : Int) (t : Tick) (rest : List Tick) (last : Option String)
      (sst : Option Int), t.result = none → t.guardTime - st < tmo →
      wfsLoop sd tmo st (t :: rest) last sst = wfsLoop sd tmo st rest none none) := by
  constructor
  · intro opts st ticks T h
    rw [waitForStable] at h
    obtain ⟨s, k, tk, hgk, hrk, hT, hdisj⟩ :=
      wfsLoop_stable_window ticks (opts.stabilityDuration.getD 500)
        (opts.timeout.getD 30000) st none none T h
    rcases hdisj with ⟨j, tj, hjk, hgj, hsd, hall⟩ | ⟨t0, habs, _⟩
    · exact ⟨s, j, k, tj, tk, hjk, hgj, hgk, hT, hsd, hall⟩
    · exact absurd habs (by simp)
  · intro sd tmo st t rest last sst hres hg
    rw [wfsLoop, if_pos hg, hres]

/-- C9, witness: a three-tick trace with identical snapshots at times 0, 50
and 100 under `stabilityDuration = 100` succeeds exactly at time 100, and the
theorem recovers the window; plus the failed-materialization clause at a
concrete failing tick. -/
theorem claim_C9_witness :
    (∃ (s : String) (j k : Nat) (tj tk : Tick),
      j ≤ k ∧
      ([⟨0, some "S", 0⟩, ⟨50, some "S", 50⟩, ⟨100, some "S", 100⟩] :
        List Tick).get? j = some tj ∧
      ([⟨0, some "S", 0⟩, ⟨50, some "S", 50⟩, ⟨100, some "S", 100⟩] :
        List Tick).get? k = some tk ∧
      (100 : Int) = tk.obsTime ∧
      (WFSOptions.mk (some 100) (some 50) (some 1000)).stabilityDuration.getD 500 ≤
        tk.obsTime - tj.obsTime ∧
      (∀ (i : Nat) (ti : Tick), j ≤ i → i ≤ k →
        ([⟨0, some "S", 0⟩, ⟨50, some "S", 50⟩, ⟨100, some "S", 100⟩] :
          List Tick).get? i = some ti → ti.result = some s)) ∧
    wfsLoop 100 1000 0 [⟨50, none, 50⟩, ⟨100, some "S", 100⟩] (some "S") (some 0) =
      wfsLoop 100 1000 0 [⟨100, some "S", 100⟩] none none :=
  ⟨claim_C9_stability_window.1 ⟨some 100, some 50, some 1000⟩ 0
      [⟨0, some "S", 0⟩, ⟨50, some "S", 50⟩, ⟨100, some "S", 100⟩] 100 (by decide),
   claim_C9_stability_window.2 100 1000 0 ⟨50, none, 50⟩ [⟨100, some "S", 100⟩]
      (some "S") (some 0) (by decide) (by decide)⟩

end PlaywrightTables
